import Mathlib

/-!
Shallow embedding of the fetch-and-aggregate pipeline of `go-check-spam`
(`src/main.go`, `src/unnamed/part_000`, `src/fib.go`), together with proofs of
the behavioural properties claimed about it.

Conventions of the embedding:
* Go maps `map[string]int` are modelled as association lists `List (String × Nat)`
  with insert-or-increment (`bump`) and lookup (`count`); a Go map has unique
  keys, which `bump` preserves.
* The Gmail service is an external collaborator; its per-call results are passed
  in as oracles (a list of page results, a fetch function per message id).
* Randomness (`math/rand`) is passed in as an input stream; `rand.Intn n`
  becomes `r % n` for `n > 0` and a panic (`none`) for `n ≤ 0`, matching its
  documented behaviour.
* Durations are in milliseconds as `Nat`.
-/

namespace CheckSpam

/-- The fields of `gmail.Message` that the program reads: `Id` and
`InternalDate` (epoch milliseconds, Go `int64`, may be non-positive). -/
structure Message where
  id : String
  internalDate : Int
deriving DecidableEq, Repr

/-- Lookup in the association-list model of `map[string]int`: the count stored
for key `k`, `0` when the key is absent (Go's zero value on missing key). -/
def count : List (String × Nat) → String → Nat
  | [], _ => 0
  | e :: t, k => if e.1 = k then e.2 else count t k

/-- Model of `dailyCounts[emailDate]++` of `src/main.go` line 62: insert-or-increment of
one key in the association-list model of the Go map. -/
def bump : List (String × Nat) → String → List (String × Nat)
  | [], k => [(k, 1)]
  | e :: t, k => if e.1 = k then (e.1, e.2 + 1) :: t else e :: bump t k

/-- The aggregation loop of `getSpamCounts` (`src/main.go` lines 42-63): fold
the fetched messages into the histogram, skipping any message whose
`internalDate` is `<= 0` (lines 47-52), otherwise incrementing the key obtained
by formatting the timestamp as a local `YYYY-MM-DD` date (lines 57-62).  The
conversion `time.UnixMilli(ms).Format("2006-01-02")` is an external library
call determined by the ambient local timezone, so it enters the model as the
parameter `fmt`. -/
def getSpamCounts (fmt : Int → String) (msgs : List Message) : List (String × Nat) :=
  msgs.foldl (fun h m => if m.internalDate ≤ 0 then h else bump h (fmt m.internalDate)) []

/-- Total number of messages counted in a histogram: the sum of all stored
counts. -/
def totalCount (h : List (String × Nat)) : Nat :=
  (h.map Prod.snd).sum

/-! ### `src/fib.go` -/
/-- Two's-complement wrap-around of 64-bit signed integer addition: Go `int`
arithmetic on the 64-bit platforms this module targets (`9223372036854775808 =
2^63`, `18446744073709551616 = 2^64`). -/
def wrap64 (x : Int) : Int :=
  (x + 9223372036854775808) % 18446744073709551616 - 9223372036854775808

/-- The `Fib` struct of `src/fib.go` lines 3-6 (fields are Go `int`). -/
structure Fib where
  value1 : Int
  value2 : Int
deriving DecidableEq, Repr

/-- Model of `NewFib` (`src/fib.go` lines 9-14). -/
def NewFib : Fib := ⟨0, 1⟩

/-- Model of `(*Fib).next` (`src/fib.go` lines 22-40): the returned value paired with
the updated receiver state; both `-1` paths of the source leave the receiver
unchanged. -/
def Fib.next (f : Fib) : Int × Fib :=
  if f.value1 < 0 ∨ f.value2 < 0 then (-1, f)
  else
    let n := wrap64 (f.value1 + f.value2)
    if n < 0 then (-1, f) else (n, ⟨f.value2, n⟩)

/-- Receiver state after `n` calls of `Next` starting from `NewFib`. -/
def fibStateAfter : Nat → Fib
  | 0 => NewFib
  | n + 1 => (Fib.next (fibStateAfter n)).2

/-- Value returned by the `(n+1)`-st call of `Next` starting from `NewFib`. -/
def fibReturn (n : Nat) : Int := (Fib.next (fibStateAfter n)).1

/-! ### `retryWithBackoff` of `src/unnamed/part_000` (lines 255-280) -/
/-- Result of `retryWithBackoff`: success, context cancellation observed at the
top of an iteration, the last operation error after the final attempt, or the
(unreachable) fall-through `retry attempts exhausted` error. -/
inductive RetryOutcome where
  | ok : RetryOutcome
  | ctxCancelled : RetryOutcome
  | failed : String → RetryOutcome
  | exhausted : RetryOutcome
deriving DecidableEq, Repr

/-- The `for i := 0; i < maxAttempts; i++` loop of `retryWithBackoff`,
parametrised by oracles: `ctxDone i` tells whether `ctx.Done()` is closed when
iteration `i` starts, `op i` is the result of attempt `i` (`none` = success,
`some e` = error), and `jit i` feeds `rand.Intn(200)` (modelled as `jit i %
200`).  `fuel` is the number of remaining iterations (`maxAttempts - i`), so
`fuel = 0` inside the error branch is exactly `i == maxAttempts-1`.  The second
component records the sleeps performed, each `wait + jitter` in ms; `wait *= 2`
capped at `10*time.Second` becomes `min (wait * 2) 10000`. -/
def retryLoop (ctxDone : Nat → Bool) (op : Nat → Option String) (jit : Nat → Nat) :
    Nat → Nat → Nat → RetryOutcome × List Nat
  | 0, _, _ => (.exhausted, [])
  | fuel + 1, i, wait =>
    if ctxDone i then (.ctxCancelled, [])
    else
      match op i with
      | none => (.ok, [])
      | some e =>
        if fuel = 0 then (.failed e, [])
        else
          let rest := retryLoop ctxDone op jit fuel (i + 1) (min (wait * 2) 10000)
          (rest.1, (wait + jit i % 200) :: rest.2)

/-- Model of `retryWithBackoff(ctx, op)`: `maxAttempts = 8` iterations starting from
`wait = 300*time.Millisecond`. -/
def retryWithBackoff (ctxDone : Nat → Bool) (op : Nat → Option String)
    (jit : Nat → Nat) : RetryOutcome × List Nat :=
  retryLoop ctxDone op jit 8 0 300

/-- The deterministic part of the wait before the `(j+1)`-st retry, when the
wait before the first retry is `w`. -/
def cappedWait (w : Nat) : Nat → Nat
  | 0 => w
  | j + 1 => min (cappedWait w j * 2) 10000

/-! ### `printSpamSummary` (`src/main.go` lines 208-240) -/
/-- Model of `printSpamSummary`, rendered as the data it prints: the `(date, count)`
lines in print order, and the final `Total`.  Keys are collected from the map
and sorted by `sort.Strings` (modelled by insertion sort — any correct sort).
A date line is printed only when `time.Parse("2006-01-02", date)` succeeds
(external library call, modelled by the oracle `parseOk`); `total += count`
happens *before* the parse, so every key counts toward the total.  The
function only reads the map (`spamCounts[date]`); the day-of-week column and
the cutoff-date blank-line separator are pure formatting without data. -/
def printSpamSummary (parseOk : String → Bool) (h : List (String × Nat)) :
    List (String × Nat) × Nat :=
  let dates := List.insertionSort (· ≤ ·) (h.map Prod.fst)
  (dates.filterMap (fun d => if parseOk d then some (d, count h d) else none),
    (dates.map (count h)).sum)

/-! ### `listSpamMessages` — orchestration models -/
/-- One response of the retried `Users.Messages.List` call: the page's message
ids (`msg.Id` for `msg` in `r.Messages`) and `r.NextPageToken`. -/
structure ListPage where
  messages : List String
  nextPageToken : String
deriving DecidableEq, Repr

/-- Successful fetches in dispatch order.  `fetch i` is the final result of
the worker's retried `Users.Messages.Get` for id `i` (jitter, backoff and
context checks already folded into the oracle): `.ok` is a fetched record,
`.error` is retry exhaustion or a cancellation observed by the retry wrapper;
a failed id is dropped and contributes nothing. -/
def collectFetched (ids : List String) (fetch : String → Except String Message) :
    List Message :=
  ids.filterMap fun i => (fetch i).toOption

/-- The listing goroutine of `listSpamMessages` in `src/main.go` (lines
127-177): pages are consumed until the first page whose `NextPageToken` is
empty or the first list-call failure after retries; that failure is only
logged (line 157) before the goroutine returns (closing `jobChan`).  Result:
the ids dispatched to the workers, and the swallowed error if any. -/
def mainDispatch : List (Except String ListPage) → List String × Option String
  | [] => ([], none)
  | .error e :: _ => ([], some e)
  | .ok p :: rest =>
    if p.nextPageToken = "" then (p.messages, none)
    else (p.messages ++ (mainDispatch rest).1, (mainDispatch rest).2)

/-- Model of `listSpamMessages` of `src/main.go` (lines 68-198) end to end: if the
collector's `time.After` timeout fires before `msgChan` closes, it cancels the
workers and returns `nil, "timed out waiting for messages"` (lines 190-192);
otherwise it returns every successfully fetched message with a `nil` error
(lines 185-189) — the listing goroutine's swallowed error never reaches the
return value. -/
def listSpamMessagesMain (pages : List (Except String ListPage))
    (fetch : String → Except String Message) (timeoutFires : Bool) :
    Except String (List Message) :=
  if timeoutFires then .error "timed out waiting for messages"
  else .ok (collectFetched (mainDispatch pages).1 fetch)

/-- Model of `listSpamMessages` of `src/unnamed/part_000` (lines 69-175).  The page
loop runs on the calling goroutine: a list failure after retries (including
`ctx.Err()` when the deadline has passed, checked at line 104) returns
`nil, fmt.Errorf("error fetching messages: %v", err)` (line 116).  A fetch
failure — including a deadline observed inside `retryWithBackoff` — makes its
worker return `nil` (non-fatal, line 149) and drop the message, so after the
last page `eg.Wait()` yields `nil` and the collected messages are returned
with a `nil` error (lines 170-174).  `acc` is the `messages` slice. -/
def listSpamMessagesBounded (fetch : String → Except String Message) :
    List (Except String ListPage) → List Message → Except String (List Message)
  | [], acc => .ok acc
  | .error e :: _, _ => .error ("error fetching messages: " ++ e)
  | .ok p :: rest, acc =>
    if p.nextPageToken = "" then .ok (acc ++ collectFetched p.messages fetch)
    else listSpamMessagesBounded fetch rest (acc ++ collectFetched p.messages fetch)

/-! ### Worker-pool concurrency bound -/
/-- Events on the counting semaphore `sem := make(chan struct{}, maxWorkers)`
of `src/unnamed/part_000` (line 89): `acquire` is the `sem <- struct{}{}` that
the dispatch loop performs before `eg.Go` (line 125), `release` is the
worker's `defer func() { <-sem }()` (line 127). -/
inductive SemEvent where
  | acquire
  | release
deriving DecidableEq, Repr

/-- Semantics of a buffered channel used as a counting semaphore: a send
blocks while the buffer holds `cap` items, so an `acquire` step exists only
when the occupancy is below `cap`; a receive consumes one item.  Because every
fetch worker is bracketed by exactly one acquire (before it starts) and one
release (when it completes), the occupancy is the number of in-flight fetch
operations. -/
inductive SemStep (cap : Nat) : Nat → SemEvent → Nat → Prop
  | acquire {n : Nat} : n < cap → SemStep cap n .acquire (n + 1)
  | release {n : Nat} : SemStep cap (n + 1) .release n

/-- Occupancies reachable from an idle semaphore by any interleaving. -/
inductive SemReach (cap : Nat) : Nat → Prop
  | init : SemReach cap 0
  | step {m n : Nat} {e : SemEvent} : SemReach cap m → SemStep cap m e n → SemReach cap n

/-- Status of one worker goroutine of `src/main.go`'s pool (lines 82-113):
each of the `*workers` goroutines processes `jobChan` sequentially, so it has
at most one `Users.Messages.Get` in flight. -/
inductive WStatus where
  | idle
  | fetching
deriving DecidableEq, Repr

/-- Number of fetches in flight: the number of workers currently fetching. -/
def inFlight (ws : List WStatus) : Nat :=
  ws.countP (fun s => s == WStatus.fetching)

/-- A scheduler step of `src/main.go`'s pool: an idle worker takes a job off
`jobChan` and starts its fetch, or a fetching worker completes.  No step
creates or destroys workers. -/
inductive PoolStep : List WStatus → List WStatus → Prop
  | start {ws : List WStatus} {i : Nat} :
      ws.get? i = some .idle → PoolStep ws (ws.set i .fetching)
  | finish {ws : List WStatus} {i : Nat} :
      ws.get? i = some .fetching → PoolStep ws (ws.set i .idle)

/-- Pool states reachable from `w` idle workers. -/
inductive PoolReach (w : Nat) : List WStatus → Prop
  | init : PoolReach w (List.replicate w .idle)
  | step {ws ws' : List WStatus} : PoolReach w ws → PoolStep ws ws' → PoolReach w ws'

/-! ### Per-message jitter (`rand.Intn(*initialDelay)`) -/
/-- Go's `math/rand.Intn`: for `n > 0` a uniform value in `[0, n)` (the raw
draw `r` reduced mod `n`); it *panics* when `n <= 0`, modelled as `none`. -/
def randIntn (n : Int) (r : Nat) : Option Nat :=
  if n ≤ 0 then none else some (r % n.toNat)

/-- Observable scheduling events of one worker processing one message id. -/
inductive WorkerEvent where
  | jitterSleep (ms : Nat)
  | fetchAttempt (i : Nat)
deriving DecidableEq, Repr

/-- The schedule of one worker for one accepted message id
(`src/unnamed/part_000` lines 129-150 and `src/main.go` lines 87-100): a
single `time.Sleep(rand.Intn(*initialDelay) * time.Millisecond)` before the
retry loop's fetch attempts, and no further jitter sleeps; `none` when
`rand.Intn` panics (`initialDelay ≤ 0`).  `attempts` is the number of fetch
attempts the retry loop performs for this id. -/
def workerEvents (initialDelay : Int) (r : Nat) (attempts : Nat) :
    Option (List WorkerEvent) :=
  match randIntn initialDelay r with
  | none => none
  | some j =>
    some (WorkerEvent.jitterSleep j :: (List.range attempts).map WorkerEvent.fetchAttempt)

/-! ### Theorems -/

theorem count_bump (h : List (String × Nat)) (k k' : String) :
    count (bump h k) k' = count h k' + if k' = k then 1 else 0 := by
  induction h with
  | nil =>
    by_cases hk : k' = k
    · simp [bump, count, hk]
    · have hkk : ¬ k = k' := fun e => hk e.symm
      simp [bump, count, hk, hkk]
  | cons e t ih =>
    by_cases he : e.1 = k
    · by_cases hk : e.1 = k'
      · have hk'k : k' = k := by rw [← hk, he]
        simp [bump, count, he, hk, hk'k]
      · have hk'k : ¬ k' = k := fun hkk => hk (by rw [he, ← hkk])
        rw [he] at hk
        simp [bump, count, he, hk, hk'k]
    · by_cases hk : e.1 = k'
      · have hk'k : ¬ k' = k := fun hkk => he (by rw [hk, hkk])
        simp [bump, count, he, hk, hk'k]
      · simp [bump, count, he, hk, ih]

theorem totalCount_bump (h : List (String × Nat)) (k : String) :
    totalCount (bump h k) = totalCount h + 1 := by
  induction h with
  | nil => simp [bump, totalCount]
  | cons e t ih =>
    by_cases he : e.1 = k
    · simp [bump, totalCount, he]
      omega
    · simp [bump, totalCount, he] at ih ⊢
      omega

theorem count_getSpamCounts_aux (fmt : Int → String) (msgs : List Message)
    (h : List (String × Nat)) (d : String) :
    count (msgs.foldl
      (fun h m => if m.internalDate ≤ 0 then h else bump h (fmt m.internalDate)) h) d
      = count h d + msgs.countP (fun m => decide (0 < m.internalDate ∧ fmt m.internalDate = d)) := by
  induction msgs generalizing h with
  | nil => simp
  | cons m t ih =>
    by_cases hm : m.internalDate ≤ 0
    · have : ¬ 0 < m.internalDate := by omega
      simp [List.foldl_cons, List.countP_cons, hm, this, ih]
    · have hpos : 0 < m.internalDate := by omega
      by_cases hd : fmt m.internalDate = d
      · simp [List.foldl_cons, List.countP_cons, hm, hpos, hd, ih, count_bump]
        omega
      · have hd' : ¬ d = fmt m.internalDate := fun e => hd e.symm
        simp [List.foldl_cons, List.countP_cons, hm, hpos, hd, hd', ih, count_bump]

theorem totalCount_getSpamCounts_aux (fmt : Int → String) (msgs : List Message)
    (h : List (String × Nat)) :
    totalCount (msgs.foldl
      (fun h m => if m.internalDate ≤ 0 then h else bump h (fmt m.internalDate)) h)
      = totalCount h + msgs.countP (fun m => decide (0 < m.internalDate)) := by
  induction msgs generalizing h with
  | nil => simp
  | cons m t ih =>
    by_cases hm : m.internalDate ≤ 0
    · have : ¬ 0 < m.internalDate := by omega
      simp [List.foldl_cons, List.countP_cons, hm, this, ih]
    · have hpos : 0 < m.internalDate := by omega
      simp [List.foldl_cons, List.countP_cons, hm, hpos, ih, totalCount_bump]
      omega

theorem getSpamCounts_filter_valid (fmt : Int → String) (msgs : List Message) :
    getSpamCounts fmt (msgs.filter (fun m => decide (0 < m.internalDate)))
      = getSpamCounts fmt msgs := by
  unfold getSpamCounts
  generalize ([] : List (String × Nat)) = h
  induction msgs generalizing h with
  | nil => simp
  | cons m t ih =>
    by_cases hm : m.internalDate ≤ 0
    · have : ¬ 0 < m.internalDate := by omega
      simp [List.filter_cons, this, hm, ih]
    · have hpos : 0 < m.internalDate := by omega
      simp [List.filter_cons, hpos, hm, ih]

theorem count_getSpamCounts (fmt : Int → String) (msgs : List Message) (d : String) :
    count (getSpamCounts fmt msgs) d
      = msgs.countP (fun m => decide (0 < m.internalDate ∧ fmt m.internalDate = d)) := by
  simpa [count] using count_getSpamCounts_aux fmt msgs [] d

theorem bump_pos (h : List (String × Nat)) (k : String)
    (hp : ∀ e ∈ h, 0 < e.2) : ∀ e ∈ bump h k, 0 < e.2 := by
  induction h with
  | nil =>
    intro e he
    simp [bump] at he
    simp [he]
  | cons a t ih =>
    intro e he
    have hpt : ∀ e ∈ t, 0 < e.2 := fun e h' => hp e (List.mem_cons_of_mem a h')
    by_cases ha : a.1 = k
    · simp [bump, ha] at he
      rcases he with he | he
      · simp [he]
      · exact hpt e he
    · simp [bump, ha] at he
      rcases he with he | he
      · exact he ▸ hp a (List.mem_cons_self a t)
      · exact ih hpt e he

theorem getSpamCounts_pos (fmt : Int → String) (msgs : List Message) :
    ∀ e ∈ getSpamCounts fmt msgs, 0 < e.2 := by
  unfold getSpamCounts
  have aux : ∀ (l : List Message) (h : List (String × Nat)), (∀ e ∈ h, 0 < e.2) →
      ∀ e ∈ l.foldl
        (fun h m => if m.internalDate ≤ 0 then h else bump h (fmt m.internalDate)) h, 0 < e.2 := by
    intro l
    induction l with
    | nil => intro h hp; simpa using hp
    | cons m t ih =>
      intro h hp
      by_cases hm : m.internalDate ≤ 0
      · simpa [hm] using ih h hp
      · simpa [hm] using ih _ (bump_pos h (fmt m.internalDate) hp)
  exact aux msgs [] (by simp)

theorem exists_mem_iff_count_pos (h : List (String × Nat)) (d : String) :
    (∀ e ∈ h, 0 < e.2) → ((∃ n, (d, n) ∈ h) ↔ 0 < count h d) := by
  induction h with
  | nil => intro _; simp [count]
  | cons a t ih =>
    intro hp
    obtain ⟨k, v⟩ := a
    have hpt : ∀ e ∈ t, 0 < e.2 := fun e h' => hp e (List.mem_cons_of_mem _ h')
    have hv : 0 < v := hp (k, v) (List.mem_cons_self _ _)
    by_cases hk : k = d
    · subst hk
      simp only [count, if_pos rfl]
      exact ⟨fun _ => hv, fun _ => ⟨v, List.mem_cons_self _ _⟩⟩
    · have hk' : ¬ (k, v).1 = d := hk
      simp only [count, if_neg hk']
      rw [← ih hpt]
      constructor
      · rintro ⟨n, hn⟩
        rcases List.mem_cons.1 hn with hn | hn
        · exact absurd (congrArg Prod.fst hn.symm) hk
        · exact ⟨n, hn⟩
      · rintro ⟨n, hn⟩
        exact ⟨n, List.mem_cons_of_mem _ hn⟩

/-- C1: for every finite list of fetched messages, the histogram that
`getSpamCounts` (`src/main.go` lines 27-66) builds maps each local-date key `d`
to the number of messages whose `internalDate` is positive and formats to `d`;
its total count equals the number of messages with a positive `internalDate`;
and the messages with `internalDate ≤ 0` are skipped without affecting
anything: deleting them leaves the histogram literally unchanged (the
aggregation loop is a total function — no error path exists in it). -/
theorem getSpamCounts_correct (fmt : Int → String) (msgs : List Message) :
    (∀ d, count (getSpamCounts fmt msgs) d
        = msgs.countP (fun m => decide (0 < m.internalDate ∧ fmt m.internalDate = d)))
    ∧ totalCount (getSpamCounts fmt msgs)
        = msgs.countP (fun m => decide (0 < m.internalDate))
    ∧ getSpamCounts fmt (msgs.filter (fun m => decide (0 < m.internalDate)))
        = getSpamCounts fmt msgs := by
  refine ⟨fun d => ?_, ?_, getSpamCounts_filter_valid fmt msgs⟩
  · simpa [count] using count_getSpamCounts_aux fmt msgs [] d
  · simpa [totalCount] using totalCount_getSpamCounts_aux fmt msgs []

/-- C7: aggregation is commutative.  Folding any permutation of a record list
through `getSpamCounts`'s per-record increment (`src/main.go` lines 42-63)
yields a histogram with the same count at every key and the same set of keys
as folding the original order. -/
theorem getSpamCounts_comm (fmt : Int → String) (l₁ l₂ : List Message)
    (hp : l₁.Perm l₂) :
    (∀ d, count (getSpamCounts fmt l₁) d = count (getSpamCounts fmt l₂) d)
    ∧ (∀ d, (∃ n, (d, n) ∈ getSpamCounts fmt l₁) ↔ (∃ n, (d, n) ∈ getSpamCounts fmt l₂)) := by
  have hc : ∀ d, count (getSpamCounts fmt l₁) d = count (getSpamCounts fmt l₂) d := by
    intro d
    rw [count_getSpamCounts, count_getSpamCounts]
    exact hp.countP_eq _
  refine ⟨hc, fun d => ?_⟩
  rw [exists_mem_iff_count_pos _ d (getSpamCounts_pos fmt l₁),
    exists_mem_iff_count_pos _ d (getSpamCounts_pos fmt l₂), hc d]

/-- Witness for C7 at a concrete two-element permutation. -/
theorem getSpamCounts_comm_witness :
    ([⟨"a", 1⟩, ⟨"b", 2⟩] : List Message).Perm [⟨"b", 2⟩, ⟨"a", 1⟩]
    ∧ ((∀ d, count (getSpamCounts (fun _ => "2024-01-02") [⟨"a", 1⟩, ⟨"b", 2⟩]) d
          = count (getSpamCounts (fun _ => "2024-01-02") [⟨"b", 2⟩, ⟨"a", 1⟩]) d)
      ∧ (∀ d, (∃ n, (d, n) ∈ getSpamCounts (fun _ => "2024-01-02") [⟨"a", 1⟩, ⟨"b", 2⟩])
          ↔ (∃ n, (d, n) ∈ getSpamCounts (fun _ => "2024-01-02") [⟨"b", 2⟩, ⟨"a", 1⟩]))) :=
  ⟨List.Perm.swap (⟨"b", 2⟩ : Message) ⟨"a", 1⟩ [],
    getSpamCounts_comm (fun _ => "2024-01-02") _ _
      (List.Perm.swap (⟨"b", 2⟩ : Message) ⟨"a", 1⟩ [])⟩

theorem wrap64_lt (x : Int) : -9223372036854775808 ≤ wrap64 x ∧ wrap64 x < 9223372036854775808 := by
  unfold wrap64
  omega

theorem next_inv_step (f : Fib) (h1 : 0 ≤ f.value1) (h2 : 1 ≤ f.value2)
    (h3 : f.value1 < 9223372036854775808) (h4 : f.value2 < 9223372036854775808) :
    0 ≤ (Fib.next f).2.value1 ∧ 1 ≤ (Fib.next f).2.value2
    ∧ (Fib.next f).2.value1 < 9223372036854775808
    ∧ (Fib.next f).2.value2 < 9223372036854775808 := by
  obtain ⟨a, b⟩ := f
  try dsimp only at h1 h2 h3 h4
  simp only [Fib.next]
  split_ifs with hneg hn
  · exact ⟨h1, h2, h3, h4⟩
  · exact ⟨h1, h2, h3, h4⟩
  · have hw : wrap64 (a + b) = a + b := by
      try dsimp only at hn
      unfold wrap64 at hn ⊢
      omega
    have hb := (wrap64_lt (a + b)).2
    refine ⟨?_, ?_, ?_, ?_⟩ <;> try dsimp only
    all_goals omega

theorem fibStateAfter_inv (n : Nat) :
    0 ≤ (fibStateAfter n).value1 ∧ 1 ≤ (fibStateAfter n).value2
    ∧ (fibStateAfter n).value1 < 9223372036854775808
    ∧ (fibStateAfter n).value2 < 9223372036854775808 := by
  induction n with
  | zero => refine ⟨by decide, by decide, by decide, by decide⟩
  | succ n ih =>
    obtain ⟨h1, h2, h3, h4⟩ := ih
    exact next_inv_step (fibStateAfter n) h1 h2 h3 h4

/-- C10: `next` returns `-1` with the receiver unchanged when a field is
negative or the (64-bit wrapped) sum is negative; otherwise it returns
`value1 + value2` and advances the state to `(value2, value1 + value2)`;
starting from `NewFib` the successive returns are `1, 2, 3, 5, 8, …` and every
return other than `-1` is positive. -/
theorem fib_next_correct :
    (∀ f : Fib, (f.value1 < 0 ∨ f.value2 < 0 ∨ wrap64 (f.value1 + f.value2) < 0) →
      Fib.next f = (-1, f))
    ∧ (∀ f : Fib, 0 ≤ f.value1 → 0 ≤ f.value2 →
        f.value1 < 9223372036854775808 → f.value2 < 9223372036854775808 →
        0 ≤ wrap64 (f.value1 + f.value2) →
        Fib.next f = (f.value1 + f.value2, ⟨f.value2, f.value1 + f.value2⟩))
    ∧ (fibReturn 0 = 1 ∧ fibReturn 1 = 2 ∧ fibReturn 2 = 3
        ∧ fibReturn 3 = 5 ∧ fibReturn 4 = 8)
    ∧ (∀ n, fibReturn n = -1 ∨ 0 < fibReturn n) := by
  refine ⟨?_, ?_, by decide, ?_⟩
  · intro f hf
    unfold Fib.next
    by_cases h1 : f.value1 < 0 ∨ f.value2 < 0
    · simp [h1]
    · have hn : wrap64 (f.value1 + f.value2) < 0 := by tauto
      simp [h1, hn]
  · intro f h1 h2 h3 h4 h5
    have hno : ¬ (f.value1 < 0 ∨ f.value2 < 0) := by omega
    have hs : wrap64 (f.value1 + f.value2) = f.value1 + f.value2 := by
      unfold wrap64 at h5 ⊢
      omega
    have hpos : ¬ (f.value1 + f.value2 < 0) := by omega
    unfold Fib.next
    simp [hno, hs, hpos]
  · intro n
    obtain ⟨h1, h2, h3, h4⟩ := fibStateAfter_inv n
    unfold fibReturn
    generalize hgen : fibStateAfter n = f at h1 h2 h3 h4
    obtain ⟨a, b⟩ := f
    try dsimp only at h1 h2 h3 h4
    simp only [Fib.next]
    split_ifs with hneg hn
    · left
      rfl
    · left
      rfl
    · right
      try dsimp only at hn ⊢
      unfold wrap64 at hn ⊢
      omega

/-- Witness for C10 at concrete states: `(-1, 1)` hits the negative-field
guard; `(1, 2)` advances normally. -/
theorem fib_next_correct_witness :
    (((⟨-1, 1⟩ : Fib).value1 < 0 ∨ (⟨-1, 1⟩ : Fib).value2 < 0
        ∨ wrap64 ((⟨-1, 1⟩ : Fib).value1 + (⟨-1, 1⟩ : Fib).value2) < 0)
      ∧ Fib.next ⟨-1, 1⟩ = (-1, ⟨-1, 1⟩))
    ∧ (0 ≤ (⟨1, 2⟩ : Fib).value1 ∧ 0 ≤ (⟨1, 2⟩ : Fib).value2
      ∧ (⟨1, 2⟩ : Fib).value1 < 9223372036854775808
      ∧ (⟨1, 2⟩ : Fib).value2 < 9223372036854775808
      ∧ 0 ≤ wrap64 ((⟨1, 2⟩ : Fib).value1 + (⟨1, 2⟩ : Fib).value2)
      ∧ Fib.next ⟨1, 2⟩ = (3, ⟨2, 3⟩)) := by
  refine ⟨⟨by decide, ?_⟩, by decide, by decide, by decide, by decide, by decide, ?_⟩
  · exact fib_next_correct.1 ⟨-1, 1⟩ (by decide)
  · simpa using fib_next_correct.2.1 ⟨1, 2⟩ (by decide) (by decide) (by decide)
      (by decide) (by decide)

theorem cappedWait_shift (w j : Nat) :
    cappedWait (min (w * 2) 10000) j = cappedWait w (j + 1) := by
  induction j with
  | zero => rfl
  | succ j ih =>
    show min (cappedWait (min (w * 2) 10000) j * 2) 10000
        = min (cappedWait w (j + 1) * 2) 10000
    rw [ih]

theorem cappedWait_300 (j : Nat) : cappedWait 300 j = min (300 * 2 ^ j) 10000 := by
  induction j with
  | zero => simp [cappedWait]
  | succ j ih =>
    show min (cappedWait 300 j * 2) 10000 = min (300 * 2 ^ (j + 1)) 10000
    rw [ih, pow_succ]
    generalize (2 : Nat) ^ j = y
    omega

theorem retryLoop_succ (ctxDone : Nat → Bool) (op : Nat → Option String)
    (jit : Nat → Nat) (fuel i wait : Nat) :
    retryLoop ctxDone op jit (fuel + 1) i wait
      = if ctxDone i then (.ctxCancelled, [])
        else
          match op i with
          | none => (.ok, [])
          | some e =>
            if fuel = 0 then (.failed e, [])
            else
              ((retryLoop ctxDone op jit fuel (i + 1) (min (wait * 2) 10000)).1,
                (wait + jit i % 200)
                  :: (retryLoop ctxDone op jit fuel (i + 1) (min (wait * 2) 10000)).2) := rfl

theorem retryLoop_ok_spec (op : Nat → Option String) (jit : Nat → Nat) :
    ∀ (k fuel i w : Nat), k < fuel →
      (∀ j, j < k → op (i + j) ≠ none) → op (i + k) = none →
      retryLoop (fun _ => false) op jit fuel i w
        = (.ok, (List.range k).map fun j => cappedWait w j + jit (i + j) % 200) := by
  intro k
  induction k with
  | zero =>
    intro fuel i w hf _ hsucc
    obtain ⟨f, rfl⟩ : ∃ f, fuel = f + 1 := ⟨fuel - 1, by omega⟩
    rw [Nat.add_zero] at hsucc
    rw [retryLoop_succ]
    simp [hsucc]
  | succ k ih =>
    intro fuel i w hf hfail hsucc
    obtain ⟨f, rfl⟩ : ∃ f, fuel = f + 1 := ⟨fuel - 1, by omega⟩
    have hop : op i ≠ none := by
      have := hfail 0 (Nat.succ_pos k)
      rwa [Nat.add_zero] at this
    obtain ⟨e, he⟩ : ∃ e, op i = some e := by
      cases hcase : op i
      · exact absurd hcase hop
      · exact ⟨_, rfl⟩
    have hf0 : f ≠ 0 := by omega
    have hrec := ih f (i + 1) (min (w * 2) 10000) (by omega)
      (fun j hj => by
        have := hfail (j + 1) (by omega)
        rwa [show i + (j + 1) = i + 1 + j by omega] at this)
      (by
        have := hsucc
        rwa [show i + (k + 1) = i + 1 + k by omega] at this)
    have hstep : retryLoop (fun _ => false) op jit (f + 1) i w
        = (.ok, (w + jit i % 200)
            :: (List.range k).map
              fun j => cappedWait (min (w * 2) 10000) j + jit (i + 1 + j) % 200) := by
      rw [retryLoop_succ, hrec]
      simp [he, hf0]
    rw [hstep]
    refine congrArg (Prod.mk RetryOutcome.ok) ?_
    rw [List.range_succ_eq_map, List.map_cons, List.map_map]
    refine congrArg₂ _ rfl ?_
    refine List.map_congr_left fun j _ => ?_
    show cappedWait (min (w * 2) 10000) j + jit (i + 1 + j) % 200
        = cappedWait w (j + 1) + jit (i + (j + 1)) % 200
    rw [cappedWait_shift, show i + 1 + j = i + (j + 1) by omega]

theorem retryLoop_fail_spec (op : Nat → Option String) (jit : Nat → Nat)
    (err : Nat → String) :
    ∀ (fuel i w : Nat), 0 < fuel →
      (∀ j, j < fuel → op (i + j) = some (err (i + j))) →
      retryLoop (fun _ => false) op jit fuel i w
        = (.failed (err (i + (fuel - 1))),
            (List.range (fuel - 1)).map fun j => cappedWait w j + jit (i + j) % 200) := by
  intro fuel
  induction fuel with
  | zero => omega
  | succ f ihf =>
    intro i w _ hfail
    have he : op i = some (err i) := by
      have := hfail 0 (by omega)
      rwa [Nat.add_zero] at this
    by_cases hf0 : f = 0
    · subst hf0
      rw [retryLoop_succ]
      simp [he]
    · obtain ⟨m, rfl⟩ : ∃ m, f = m + 1 := ⟨f - 1, by omega⟩
      have hrec := ihf (i + 1) (min (w * 2) 10000) (by omega)
        (fun j hj => by
          have := hfail (j + 1) (by omega)
          rwa [show i + (j + 1) = i + 1 + j by omega] at this)
      have hstep : retryLoop (fun _ => false) op jit (m + 1 + 1) i w
          = (.failed (err (i + 1 + (m + 1 - 1))), (w + jit i % 200)
              :: (List.range (m + 1 - 1)).map
                fun j => cappedWait (min (w * 2) 10000) j + jit (i + 1 + j) % 200) := by
        rw [retryLoop_succ, hrec]
        simp [he]
      rw [hstep]
      refine congrArg₂ Prod.mk ?_ ?_
      · rw [show i + 1 + (m + 1 - 1) = i + (m + 1 + 1 - 1) by omega]
      · rw [show m + 1 + 1 - 1 = (m + 1 - 1) + 1 by omega,
          List.range_succ_eq_map, List.map_cons, List.map_map]
        refine congrArg₂ _ rfl ?_
        refine List.map_congr_left fun j _ => ?_
        show cappedWait (min (w * 2) 10000) j + jit (i + 1 + j) % 200
            = cappedWait w (j + 1) + jit (i + (j + 1)) % 200
        rw [cappedWait_shift, show i + 1 + j = i + (j + 1) by omega]

/-- C4: with the context never cancelled, when attempts `0..k-1` fail and
attempt `k` succeeds (`k < 8`), `retryWithBackoff` sleeps exactly once after
each failed attempt `j`, for `min (300ms * 2^j) 10s` plus the jitter
`rand.Intn(200) ∈ [0, 200)`; and when all 8 attempts fail it performs the 7
sleeps after attempts `0..6` and returns the error of the 8th attempt without
a further sleep. -/
theorem retryWithBackoff_spec (op : Nat → Option String) (jit : Nat → Nat)
    (err : Nat → String) :
    (∀ k, k < 8 → (∀ j, j < k → op j ≠ none) → op k = none →
      retryWithBackoff (fun _ => false) op jit
        = (.ok, (List.range k).map fun j => min (300 * 2 ^ j) 10000 + jit j % 200))
    ∧ ((∀ j, j < 8 → op j = some (err j)) →
      retryWithBackoff (fun _ => false) op jit
        = (.failed (err 7),
            (List.range 7).map fun j => min (300 * 2 ^ j) 10000 + jit j % 200)) := by
  constructor
  · intro k hk hfail hsucc
    unfold retryWithBackoff
    rw [retryLoop_ok_spec op jit k 8 0 300 hk
      (fun j hj => by simpa using hfail j hj) (by simpa using hsucc)]
    refine congrArg (Prod.mk RetryOutcome.ok) ?_
    refine List.map_congr_left fun j _ => ?_
    rw [cappedWait_300, Nat.zero_add]
  · intro hfail
    unfold retryWithBackoff
    rw [retryLoop_fail_spec op jit err 8 0 300 (by omega)
      (fun j hj => by simpa using hfail j hj)]
    refine congrArg₂ Prod.mk (by norm_num) ?_
    show List.map _ (List.range 7) = _
    refine List.map_congr_left fun j _ => ?_
    rw [cappedWait_300, Nat.zero_add]

/-- Witness for C4: three transient failures then success; jitter stream
constantly 7. -/
theorem retryWithBackoff_spec_witness :
    (3 < 8 ∧ (∀ j, j < 3 → (fun n => if n < 3 then some "transient" else none) j ≠ none)
      ∧ (fun n => if n < 3 then some "transient" else none) 3 = none)
    ∧ retryWithBackoff (fun _ => false)
        (fun n => if n < 3 then some "transient" else none) (fun _ => 7)
        = (.ok, (List.range 3).map fun j => min (300 * 2 ^ j) 10000 + 7 % 200) := by
  refine ⟨⟨by decide, by decide, by decide⟩, ?_⟩
  exact (retryWithBackoff_spec (fun n => if n < 3 then some "transient" else none)
    (fun _ => 7) (fun _ => "transient")).1 3 (by decide) (by decide) (by decide)

theorem count_mem_nodup (h : List (String × Nat)) :
    (h.map Prod.fst).Nodup → ∀ e ∈ h, count h e.1 = e.2 := by
  induction h with
  | nil => simp
  | cons a t ih =>
    intro hnd e he
    rw [List.map_cons, List.nodup_cons] at hnd
    rcases List.mem_cons.1 he with rfl | het
    · simp [count]
    · have ha : ¬ a.1 = e.1 := fun hc =>
        hnd.1 (hc ▸ List.mem_map_of_mem Prod.fst het)
      have : count t e.1 = e.2 := ih hnd.2 e het
      simpa [count, ha] using this

theorem sum_count_keys (h : List (String × Nat))
    (hnd : (h.map Prod.fst).Nodup) :
    ((h.map Prod.fst).map (count h)).sum = totalCount h := by
  rw [List.map_map]
  refine congrArg List.sum (List.map_congr_left fun e he => ?_)
  exact count_mem_nodup h hnd e he

theorem filterMap_all_print (parseOk : String → Bool) (h : List (String × Nat)) :
    ∀ l : List String, (∀ d ∈ l, parseOk d = true) →
      l.filterMap (fun d => if parseOk d then some (d, count h d) else none)
        = l.map fun d => (d, count h d) := by
  intro l
  induction l with
  | nil => simp
  | cons d t ih =>
    intro hall
    have hd : parseOk d = true := hall d (List.mem_cons_self d t)
    rw [List.filterMap_cons, List.map_cons, if_pos hd,
      ih fun x hx => hall x (List.mem_cons_of_mem d hx)]

/-- C9: `printSpamSummary` prints the histogram's date keys sorted in
(non-strict) lexicographically ascending order — exactly the key set, each
with its stored count, when every key parses as a `YYYY-MM-DD` date, which
holds for every histogram of the data model — and ends with a `Total` equal
to the sum of all counts; it reads but never writes the histogram (the model
is a pure function of `h`). -/
theorem printSpamSummary_correct (parseOk : String → Bool)
    (h : List (String × Nat)) (hnd : (h.map Prod.fst).Nodup)
    (hparse : ∀ k ∈ h.map Prod.fst, parseOk k = true) :
    List.Sorted (· ≤ ·) ((printSpamSummary parseOk h).1.map Prod.fst)
    ∧ ((printSpamSummary parseOk h).1.map Prod.fst).Perm (h.map Prod.fst)
    ∧ (∀ e ∈ (printSpamSummary parseOk h).1, count h e.1 = e.2)
    ∧ (printSpamSummary parseOk h).2 = totalCount h := by
  have hperm : (List.insertionSort (· ≤ ·) (h.map Prod.fst)).Perm (h.map Prod.fst) :=
    List.perm_insertionSort _ _
  have hparse' : ∀ d ∈ List.insertionSort (· ≤ ·) (h.map Prod.fst), parseOk d = true :=
    fun d hd => hparse d (hperm.subset hd)
  have hprint : (printSpamSummary parseOk h).1
      = (List.insertionSort (· ≤ ·) (h.map Prod.fst)).map fun d => (d, count h d) :=
    filterMap_all_print parseOk h _ hparse'
  have hkeys : (printSpamSummary parseOk h).1.map Prod.fst
      = List.insertionSort (· ≤ ·) (h.map Prod.fst) := by
    rw [hprint, List.map_map]
    exact List.map_id _
  refine ⟨?_, ?_, ?_, ?_⟩
  · rw [hkeys]
    exact List.sorted_insertionSort _ _
  · rw [hkeys]
    exact hperm
  · intro e he
    rw [hprint] at he
    obtain ⟨d, _, rfl⟩ := List.mem_map.1 he
    rfl
  · show ((List.insertionSort (· ≤ ·) (h.map Prod.fst)).map (count h)).sum = totalCount h
    rw [(hperm.map (count h)).sum_eq, sum_count_keys h hnd]

/-- Witness for C9 at a concrete two-key histogram (keys listed unsorted). -/
theorem printSpamSummary_correct_witness :
    ((([("2024-01-03", 2), ("2024-01-01", 1)] : List (String × Nat)).map Prod.fst).Nodup
      ∧ (∀ k ∈ ([("2024-01-03", 2), ("2024-01-01", 1)] : List (String × Nat)).map Prod.fst,
          (fun _ => true) k = true))
    ∧ (List.Sorted (· ≤ ·)
        ((printSpamSummary (fun _ => true) [("2024-01-03", 2), ("2024-01-01", 1)]).1.map Prod.fst)
      ∧ ((printSpamSummary (fun _ => true) [("2024-01-03", 2), ("2024-01-01", 1)]).1.map
          Prod.fst).Perm
            (([("2024-01-03", 2), ("2024-01-01", 1)] : List (String × Nat)).map Prod.fst)
      ∧ (∀ e ∈ (printSpamSummary (fun _ => true) [("2024-01-03", 2), ("2024-01-01", 1)]).1,
          count [("2024-01-03", 2), ("2024-01-01", 1)] e.1 = e.2)
      ∧ (printSpamSummary (fun _ => true) [("2024-01-03", 2), ("2024-01-01", 1)]).2
          = totalCount [("2024-01-03", 2), ("2024-01-01", 1)]) := by
  refine ⟨⟨by decide, by decide⟩, ?_⟩
  exact printSpamSummary_correct (fun _ => true) [("2024-01-03", 2), ("2024-01-01", 1)]
    (by decide) (by decide)

theorem mainDispatch_err (e : String) (rest : List (Except String ListPage)) :
    ∀ good : List ListPage, (∀ p ∈ good, p.nextPageToken ≠ "") →
      mainDispatch (good.map .ok ++ .error e :: rest)
        = ((good.map ListPage.messages).flatten, some e) := by
  intro good
  induction good with
  | nil => intro _; rfl
  | cons p t ih =>
    intro hgood
    have hp : p.nextPageToken ≠ "" := hgood p (List.mem_cons_self p t)
    have ht := ih fun q hq => hgood q (List.mem_cons_of_mem p hq)
    simp only [List.map_cons, List.cons_append, mainDispatch, if_neg hp, List.append_eq, ht,
      List.flatten_cons]

theorem listSpamMessagesBounded_err (fetch : String → Except String Message)
    (e : String) (rest : List (Except String ListPage)) :
    ∀ (good : List ListPage) (acc : List Message),
      (∀ p ∈ good, p.nextPageToken ≠ "") →
      listSpamMessagesBounded fetch (good.map .ok ++ .error e :: rest) acc
        = .error ("error fetching messages: " ++ e) := by
  intro good
  induction good with
  | nil => intro acc _; rfl
  | cons p t ih =>
    intro acc hgood
    have hp : p.nextPageToken ≠ "" := hgood p (List.mem_cons_self p t)
    simp only [List.map_cons, List.cons_append, listSpamMessagesBounded, if_neg hp]
    exact ih _ fun q hq => hgood q (List.mem_cons_of_mem p hq)

theorem listSpamMessagesBounded_ok (fetch : String → Except String Message) :
    ∀ (good : List ListPage) (p : ListPage) (acc : List Message),
      (∀ q ∈ good, q.nextPageToken ≠ "") → p.nextPageToken = "" →
      listSpamMessagesBounded fetch (good.map .ok ++ [.ok p]) acc
        = .ok (acc ++ collectFetched ((good.map ListPage.messages).flatten ++ p.messages) fetch) := by
  intro good
  induction good with
  | nil =>
    intro p acc _ hp
    simp [listSpamMessagesBounded, hp]
  | cons q t ih =>
    intro p acc hgood hp
    have hq : q.nextPageToken ≠ "" := hgood q (List.mem_cons_self q t)
    simp only [List.map_cons, List.cons_append, listSpamMessagesBounded, if_neg hq,
      List.append_eq]
    rw [ih p _ (fun x hx => hgood x (List.mem_cons_of_mem q hx)) hp]
    simp [collectFetched, List.filterMap_append, List.flatten_cons, List.append_assoc]

theorem collectFetched_cons (fetch : String → Except String Message) (i : String)
    (ids : List String) :
    collectFetched (i :: ids) fetch
      = (match fetch i with | .ok m => [m] | .error _ => []) ++ collectFetched ids fetch := by
  cases hf : fetch i <;> simp [collectFetched, List.filterMap_cons, hf, Except.toOption]

theorem collectFetched_length (fetch : String → Except String Message) :
    ∀ ids, (collectFetched ids fetch).length
      = ids.countP fun i => (fetch i).toOption.isSome := by
  intro ids
  induction ids with
  | nil => rfl
  | cons i t ih =>
    cases hf : fetch i <;>
      simp [collectFetched, List.filterMap_cons, List.countP_cons, hf, Except.toOption] at ih ⊢ <;>
      omega

/-- C2 counterexample: in `src/main.go`, a run whose very first list call
fails after exhausting all retries returns the messages collected so far
(here none) with a nil error — not the non-nil error the claim requires. -/
theorem listFailure_nilError_counterexample :
    listSpamMessagesMain [.error "quota exceeded"] (fun _ => .error "unused") false
      = .ok []
    ∧ ∀ e, listSpamMessagesMain [.error "quota exceeded"] (fun _ => .error "unused") false
        ≠ .error e := by
  refine ⟨rfl, fun e h => ?_⟩
  rw [show listSpamMessagesMain [.error "quota exceeded"] (fun _ => .error "unused") false
      = .ok [] from rfl] at h
  exact Except.noConfusion h

/-- C2 corrected: when a list call fails on all retry attempts,
`src/unnamed/part_000`'s `listSpamMessages` aborts the run with a non-nil
error, but `src/main.go`'s listing goroutine only logs the failure and stops
listing, and (the overall timeout not having fired) `listSpamMessages`
returns the messages collected so far with a nil error. -/
theorem listFailure_behavior (good : List ListPage) (e : String)
    (rest : List (Except String ListPage)) (fetch : String → Except String Message)
    (hgood : ∀ p ∈ good, p.nextPageToken ≠ "") :
    listSpamMessagesBounded fetch (good.map .ok ++ .error e :: rest) []
      = .error ("error fetching messages: " ++ e)
    ∧ listSpamMessagesMain (good.map .ok ++ .error e :: rest) fetch false
      = .ok (collectFetched ((good.map ListPage.messages).flatten) fetch) := by
  refine ⟨listSpamMessagesBounded_err fetch e rest good [] hgood, ?_⟩
  have hdef : listSpamMessagesMain (good.map .ok ++ .error e :: rest) fetch false
      = .ok (collectFetched (mainDispatch (good.map .ok ++ .error e :: rest)).1 fetch) := rfl
  rw [hdef, mainDispatch_err e rest good hgood]

/-- Witness for C2's corrected statement: one good page, then a failing list
call. -/
theorem listFailure_behavior_witness :
    (∀ p ∈ [ListPage.mk ["a"] "tok"], p.nextPageToken ≠ "")
    ∧ (listSpamMessagesBounded (fun _ => .ok ⟨"a", 5⟩)
        ([ListPage.mk ["a"] "tok"].map .ok ++ .error "quota" :: []) []
        = .error ("error fetching messages: " ++ "quota")
      ∧ listSpamMessagesMain ([ListPage.mk ["a"] "tok"].map .ok ++ .error "quota" :: [])
          (fun _ => .ok ⟨"a", 5⟩) false
        = .ok (collectFetched (([ListPage.mk ["a"] "tok"].map ListPage.messages).flatten)
            (fun _ => .ok ⟨"a", 5⟩))) := by
  refine ⟨by decide, ?_⟩
  exact listFailure_behavior [ListPage.mk ["a"] "tok"] "quota" []
    (fun _ => .ok ⟨"a", 5⟩) (by decide)

/-- C3 counterexample: in `src/unnamed/part_000`, with the overall deadline
expiring during draining — the fetch of `"b"` observes `ctx.Err()`
(`"context deadline exceeded"`) inside `retryWithBackoff`, so its worker
drops it and returns nil — `listSpamMessages` returns the partially collected
message list with a nil error, not a timeout error with a nil result. -/
theorem timeoutDrain_keepsMessages_counterexample :
    listSpamMessagesBounded
      (fun i => if i = "a" then .ok ⟨"a", 1000⟩ else .error "context deadline exceeded")
      [.ok ⟨["a", "b"], ""⟩] []
      = .ok [⟨"a", 1000⟩]
    ∧ ∀ e, listSpamMessagesBounded
        (fun i => if i = "a" then .ok ⟨"a", 1000⟩ else .error "context deadline exceeded")
        [.ok ⟨["a", "b"], ""⟩] []
        ≠ .error e := by
  refine ⟨rfl, fun e h => ?_⟩
  rw [show listSpamMessagesBounded
      (fun i => if i = "a" then .ok ⟨"a", 1000⟩ else .error "context deadline exceeded")
      [.ok ⟨["a", "b"], ""⟩] []
      = .ok [⟨"a", 1000⟩] from rfl] at h
  exact Except.noConfusion h

/-- C3 corrected: `src/main.go`'s `listSpamMessages` does return a nil result
with the timeout error whenever the collector's timeout fires, and
`src/unnamed/part_000` returns a non-nil error when the deadline elapses
during listing; but when the deadline elapses during draining, part_000
silently omits the dropped fetches and returns the partially collected list
with a nil error. -/
theorem timeout_behavior (pages : List (Except String ListPage))
    (fetch : String → Except String Message) (p : ListPage) (acc : List Message)
    (hp : p.nextPageToken = "") :
    listSpamMessagesMain pages fetch true = .error "timed out waiting for messages"
    ∧ listSpamMessagesBounded fetch (.error "context deadline exceeded" :: pages) acc
      = .error ("error fetching messages: " ++ "context deadline exceeded")
    ∧ listSpamMessagesBounded fetch [.ok p] acc
      = .ok (acc ++ collectFetched p.messages fetch) := by
  refine ⟨rfl, rfl, ?_⟩
  simp [listSpamMessagesBounded, hp]

/-- Witness for C3's corrected statement. -/
theorem timeout_behavior_witness :
    (ListPage.mk ["a", "b"] "").nextPageToken = ""
    ∧ (listSpamMessagesMain [] (fun _ => .error "x") true
        = .error "timed out waiting for messages"
      ∧ listSpamMessagesBounded (fun _ => .error "x")
          (.error "context deadline exceeded" :: []) []
        = .error ("error fetching messages: " ++ "context deadline exceeded")
      ∧ listSpamMessagesBounded (fun _ => .error "x") [.ok (ListPage.mk ["a", "b"] "")] []
        = .ok ([] ++ collectFetched (ListPage.mk ["a", "b"] "").messages
            (fun _ => .error "x"))) := by
  refine ⟨rfl, ?_⟩
  exact timeout_behavior [] (fun _ => .error "x") (ListPage.mk ["a", "b"] "") [] rfl

/-- C5: per accepted message id the pool emits at most one record — exactly
one on fetch success (`.ok`), zero on exhausted retries or cancellation
(`.error`, dropped) — and a single message's permanent failure is non-fatal:
once listing completes, both variants return `.ok` of the collected records
whatever the fetch outcomes were. -/
theorem worker_emission (fetch : String → Except String Message) :
    (∀ i ids, collectFetched (i :: ids) fetch
        = (match fetch i with | .ok m => [m] | .error _ => []) ++ collectFetched ids fetch)
    ∧ (∀ ids, (collectFetched ids fetch).length
        = ids.countP fun i => (fetch i).toOption.isSome)
    ∧ (∀ (good : List ListPage) (p : ListPage) (acc : List Message),
        (∀ q ∈ good, q.nextPageToken ≠ "") → p.nextPageToken = "" →
        listSpamMessagesBounded fetch (good.map .ok ++ [.ok p]) acc
          = .ok (acc ++ collectFetched ((good.map ListPage.messages).flatten ++ p.messages) fetch))
    ∧ (∀ pages, listSpamMessagesMain pages fetch false
        = .ok (collectFetched (mainDispatch pages).1 fetch)) :=
  ⟨fun i ids => collectFetched_cons fetch i ids, collectFetched_length fetch,
    listSpamMessagesBounded_ok fetch, fun _ => rfl⟩

/-- Witness for C5: a two-id page, one fetch succeeding and one failing. -/
theorem worker_emission_witness :
    ((∀ q ∈ ([] : List ListPage), q.nextPageToken ≠ "")
      ∧ (ListPage.mk ["a", "b"] "").nextPageToken = "")
    ∧ listSpamMessagesBounded
        (fun i => if i = "a" then .ok ⟨"a", 7⟩ else .error "gone")
        (([] : List ListPage).map .ok ++ [.ok (ListPage.mk ["a", "b"] "")]) []
      = .ok ([] ++ collectFetched
          ((([] : List ListPage).map ListPage.messages).flatten
            ++ (ListPage.mk ["a", "b"] "").messages)
          (fun i => if i = "a" then .ok ⟨"a", 7⟩ else .error "gone")) := by
  refine ⟨⟨by decide, rfl⟩, ?_⟩
  exact (worker_emission (fun i => if i = "a" then .ok ⟨"a", 7⟩ else .error "gone")).2.2.1
    [] (ListPage.mk ["a", "b"] "") [] (by decide) rfl

theorem poolReach_length (w : Nat) (ws : List WStatus) (h : PoolReach w ws) :
    ws.length = w := by
  induction h with
  | init => simp
  | step _ hs ih =>
    cases hs with
    | start hi => rw [List.length_set]; exact ih
    | finish hi => rw [List.length_set]; exact ih

/-- C6: the number of concurrently in-flight fetch operations never exceeds
the configured bound, in either variant: every semaphore occupancy reachable
in part_000's discipline is at most the channel capacity (`maxWorkers = 8`),
and in main.go's pool the fetches in flight never exceed the `-workers`
goroutine count. -/
theorem inflight_bounded :
    (∀ cap n, SemReach cap n → n ≤ cap)
    ∧ (∀ w ws, PoolReach w ws → inFlight ws ≤ w) := by
  constructor
  · intro cap n h
    induction h with
    | init => exact Nat.zero_le _
    | step _ hs ih =>
      cases hs with
      | acquire hlt => omega
      | release => omega
  · intro w ws h
    calc inFlight ws ≤ ws.length := List.countP_le_length _
      _ = w := poolReach_length w ws h

/-- Witness for C6: one acquire on the 8-token semaphore; one of two workers
fetching. -/
theorem inflight_bounded_witness :
    (SemReach 8 1 ∧ 1 ≤ 8)
    ∧ (PoolReach 2 ((List.replicate 2 WStatus.idle).set 0 .fetching)
      ∧ inFlight ((List.replicate 2 WStatus.idle).set 0 .fetching) ≤ 2) := by
  have hsem : SemReach 8 1 := SemReach.step SemReach.init (SemStep.acquire (by omega))
  have hpool : PoolReach 2 ((List.replicate 2 WStatus.idle).set 0 .fetching) :=
    PoolReach.step PoolReach.init (PoolStep.start (by decide))
  exact ⟨⟨hsem, inflight_bounded.1 8 1 hsem⟩, hpool, inflight_bounded.2 2 _ hpool⟩

/-- C8 (code bug): with `-initial-delay 0` — a ceiling the spec's
`perFetchJitterCeiling ≥ 0` allows — `rand.Intn(0)` panics before the first
fetch attempt of the first accepted message, so the computation fails where
the claim requires it not to; with the default positive ceiling the worker
performs exactly one jitter sleep of `r % ceiling ∈ [0, ceiling)` ms, placed
before every fetch attempt. -/
theorem workerEvents_zero_delay_panics :
    workerEvents 0 0 8 = none
    ∧ workerEvents 1000 1234 8
      = some (WorkerEvent.jitterSleep 234 :: (List.range 8).map WorkerEvent.fetchAttempt)
    ∧ (234 : Nat) < 1000 := by
  refine ⟨rfl, ?_, by omega⟩
  rfl

end CheckSpam

